import Mathlib

/-!
Verification of the image-to-PPM converter (`image_generator.py`).

The script decodes an image with PIL, opens a destination text file,
writes a two-line header, then writes one text line per visited pixel.
This file embeds the script as pure Lean definitions:

* `PILImage` models the decoded raster: a width, a height, and a
  per-coordinate list of channel values (`pixels[x, y]` in the source).
* `run` models the whole top-level script as an event trace (file open
  and writes, in order) together with an optional terminating error,
  since every error in the script is uncaught and stops execution.
* A decode failure of `Image.open` is modelled by running on `none`:
  the statements of line 3 precede the output-file open of line 6, so
  nothing at all is executed on a decode failure.

Two source facts are embedded with care because they decide several
properties below:

* line 7 reads `height, width = im.size`, while PIL's `im.size` is
  `(width, height)`; the two local variables therefore hold the
  swapped dimensions;
* line 15 writes `f"{rbga[2]} {rbga[0]} {rbga[1]} {rbga[3]}\n"`,
  i.e. four values per pixel, the fourth being the alpha channel,
  with the channel accesses evaluated left to right.
-/

namespace ImageGenerator

/-- A decoded raster image as the script consumes it through PIL:
`width`/`height` are the components of `im.size`, and `pix x y` is the
tuple of channel values returned by `pixels[x, y]`, represented as a
list (PIL returns a 4-tuple for RGBA images, shorter tuples for images
with fewer channels). A coordinate access is only valid for
`x < width` and `y < height`. -/
structure PILImage where
  width : Nat
  height : Nat
  pix : Nat → Nat → List Nat

/-- The uncaught errors that can terminate the script: a decode failure
of `Image.open` (line 3), an out-of-range coordinate passed to
`pixels[x, y]` (line 13), or an out-of-range channel index `i` in
`rbga[i]` (line 15). The latter two are Python `IndexError`s. -/
inductive RunError where
  | decodeError
  | pixelIndexError
  | channelIndexError (i : Nat)
deriving DecidableEq

/-- The externally visible file-system effects of the script, in order:
opening (creating/truncating) the destination file, and each `write`. -/
inductive Event where
  | openOutput
  | write (s : String)
deriving DecidableEq

/-- `pixels[x, y]` (line 13): returns the channel tuple when the
coordinate is inside the image, raises an `IndexError` otherwise. -/
def pixelRead (im : PILImage) (x y : Nat) : Except RunError (List Nat) :=
  if x < im.width ∧ y < im.height then Except.ok (im.pix x y)
  else Except.error RunError.pixelIndexError

/-- The body of the pixel line of line 15, without its terminator: the
four interpolated decimal numbers separated by single spaces, in the
order channel 2, channel 0, channel 1, channel 3. -/
def pixelLineString (b r g a : Nat) : String :=
  Nat.repr b ++ " " ++ Nat.repr r ++ " " ++ Nat.repr g ++ " " ++ Nat.repr a

/-- The f-string of line 15, `f"{rbga[2]} {rbga[0]} {rbga[1]} {rbga[3]}\n"`:
the four channel accesses are evaluated left to right, and the first
out-of-range index raises an `IndexError`. -/
def formatPixel (rbga : List Nat) : Except RunError String :=
  match rbga.get? 2 with
  | none => Except.error (RunError.channelIndexError 2)
  | some b =>
    match rbga.get? 0 with
    | none => Except.error (RunError.channelIndexError 0)
    | some r =>
      match rbga.get? 1 with
      | none => Except.error (RunError.channelIndexError 1)
      | some g =>
        match rbga.get? 3 with
        | none => Except.error (RunError.channelIndexError 3)
        | some a => Except.ok (pixelLineString b r g a ++ "\n")

/-- One iteration of the inner loop body (lines 13-15) at coordinate
`p = (x, y)`: read `pixels[x, y]`, then format the write string. -/
def pixelStep (im : PILImage) (p : Nat × Nat) : Except RunError String :=
  match pixelRead im p.1 p.2 with
  | Except.error e => Except.error e
  | Except.ok rbga => formatPixel rbga

/-- The coordinate sequence of the nested loops of lines 11-12:
`for y in range(hVar): for x in range(wVar)`, visiting `(x, y)` pairs
with the outer index `y` bounded by the script's `height` variable and
the inner index `x` bounded by its `width` variable. -/
def loopCoords (hVar wVar : Nat) : List (Nat × Nat) :=
  (List.range hVar).flatMap fun y => (List.range wVar).map fun x => (x, y)

/-- The pixel loop of lines 11-15 over a coordinate list: each
successful step emits one `write` event; the first failing step
terminates the loop with its error, emitting nothing further. -/
def runPixelLoop (im : PILImage) : List (Nat × Nat) → List Event × Option RunError
  | [] => ([], none)
  | p :: rest =>
    match pixelStep im p with
    | Except.error e => ([], some e)
    | Except.ok s =>
      let r := runPixelLoop im rest
      (Event.write s :: r.1, r.2)

/-- The header write of line 9, `f"P3\n{width} {height}\n"`. Because
line 7 unpacks `height, width = im.size` and `im.size = (width, height)`,
the script's `width` variable holds `im.height` and its `height`
variable holds `im.width`. -/
def headerString (im : PILImage) : String :=
  "P3\n" ++ Nat.repr im.height ++ " " ++ Nat.repr im.width ++ "\n"

/-- The whole script. `none` stands for an input path that PIL cannot
decode: `Image.open` (line 3) raises before `open("icon.ppm", "w")`
(line 6) runs, so no event is emitted at all. On a decoded image the
script opens the output file, writes the header, and runs the pixel
loop with the outer bound `height = im.width` and the inner bound
`width = im.height` (the swap of line 7). -/
def run (input : Option PILImage) : List Event × Option RunError :=
  match input with
  | none => ([], some RunError.decodeError)
  | some im =>
    let r := runPixelLoop im (loopCoords im.width im.height)
    (Event.openOutput :: Event.write (headerString im) :: r.1, r.2)

/-- The strings written by a list of events, in order. -/
def writesOf (evs : List Event) : List String :=
  evs.filterMap fun e =>
    match e with
    | Event.openOutput => none
    | Event.write s => some s

/-- The final contents of the destination file: the concatenation of
everything written before the script finished or died. -/
def outputString (input : Option PILImage) : String :=
  String.join (writesOf (run input).1)

/-- One character of line-splitting, processed right to left: `acc` is
the split of the suffix; a newline starts a fresh (empty) piece, any
other character is prepended to the first piece. -/
def splitStep (c : Char) (acc : List (List Char)) : List (List Char) :=
  if c = '\n' then [] :: acc else (c :: acc.headI) :: acc.tail

/-- Split a character sequence at every `'\n'`. A sequence with `k`
newline characters yields `k + 1` pieces; a trailing newline therefore
yields a final empty piece. -/
def splitLines (cs : List Char) : List (List Char) :=
  cs.foldr splitStep [[]]

/-- The lines of a text file's contents: the pieces obtained by
splitting at every line terminator, without the terminators. -/
def fileLines (s : String) : List String :=
  (splitLines s.data).map String.mk

/-- The number of newline-terminated lines of a text file's contents.
Every line the script writes is newline-terminated, so this counts its
output lines. -/
def fileLineCount (s : String) : Nat :=
  s.data.count '\n'

/-- The text of the second header line as the script writes it:
`im.height`, a space, `im.width` (dimensions swapped by line 7). -/
def dimLine (im : PILImage) : String :=
  Nat.repr im.height ++ " " ++ Nat.repr im.width

/-- The body of the pixel line the script writes for a channel tuple
with at least four entries: channels 2, 0, 1, 3 in decimal, separated
by single spaces. -/
def pixelBodyOf (rbga : List Nat) : String :=
  pixelLineString ((rbga.get? 2).getD 0) ((rbga.get? 0).getD 0)
    ((rbga.get? 1).getD 0) ((rbga.get? 3).getD 0)

/-- Row-major enumeration of the true pixel coordinates of a `w × h`
image: all horizontal positions of row 0 left to right, then row 1,
and so on. (Stated from the specification's definition of row-major
order, for comparison with the loop order of the source.) -/
def rowMajorCoords (w h : Nat) : List (Nat × Nat) :=
  (List.range h).flatMap fun y => (List.range w).map fun x => (x, y)

/-- Whether the loop body succeeds at a coordinate. -/
def stepOk (im : PILImage) (p : Nat × Nat) : Bool :=
  match pixelStep im p with
  | Except.ok _ => true
  | Except.error _ => false

/-- The coordinates whose pixel line is actually written: the longest
prefix of the visited coordinate sequence on which every loop body
succeeds (the loop dies at the first failure). -/
def emittedCoords (im : PILImage) : List (Nat × Nat) :=
  (loopCoords im.width im.height).takeWhile (stepOk im)

/-- Whether an error is a Python `IndexError` (as opposed to the decode
failure of `Image.open`). -/
def RunError.isIndexingError : RunError → Bool
  | RunError.decodeError => false
  | RunError.pixelIndexError => true
  | RunError.channelIndexError _ => true

/-- A 1×1 fully opaque red image: single pixel `(255, 0, 0, 255)`. -/
def imgRed : PILImage := ⟨1, 1, fun _ _ => [255, 0, 0, 255]⟩

/-- A 2-wide, 1-high image with pixels `(10,20,30,255)` and
`(40,50,60,255)` left to right. -/
def imgTwoWide : PILImage :=
  ⟨2, 1, fun x _ => if x = 0 then [10, 20, 30, 255] else [40, 50, 60, 255]⟩

/-- A 1×1 image with pixel `(r, g, b, a) = (10, 20, 30, 40)`. -/
def imgC1 : PILImage := ⟨1, 1, fun _ _ => [10, 20, 30, 40]⟩

/-- A 3-wide, 2-high image, all pixels `(1, 2, 3, 4)`. -/
def imgWide3 : PILImage := ⟨3, 2, fun _ _ => [1, 2, 3, 4]⟩

/-- A 1×1 two-channel image (e.g. PIL mode LA): pixel `(7, 8)`. -/
def imgTwoChan : PILImage := ⟨1, 1, fun _ _ => [7, 8]⟩

/-- A 1×1 three-channel image (PIL mode RGB): pixel `(5, 6, 7)`. -/
def imgRGB : PILImage := ⟨1, 1, fun _ _ => [5, 6, 7]⟩

/-- A 2×2 image with pixel `(x, y) = (x, y, x + y, 9)`. -/
def imgSquare2 : PILImage := ⟨2, 2, fun x y => [x, y, x + y, 9]⟩

/-! ### Decimal rendering facts -/

theorem digitChar_ne_newline (d : Nat) : Nat.digitChar d ≠ '\n' := by
  by_cases hd : d < 16
  · interval_cases d <;> decide
  · have hstar : Nat.digitChar d = '*' := by
      unfold Nat.digitChar
      repeat rw [if_neg (by omega)]
    rw [hstar]
    decide

theorem toDigitsCore_mem (fuel : Nat) :
    ∀ (n : Nat) (acc : List Char) (c : Char), c ∈ Nat.toDigitsCore 10 fuel n acc →
      (∃ d, c = Nat.digitChar d) ∨ c ∈ acc := by
  induction fuel with
  | zero => intro n acc c h; exact Or.inr h
  | succ fuel ih =>
    intro n acc c h
    have hstep : Nat.toDigitsCore 10 (fuel + 1) n acc =
        if n / 10 = 0 then Nat.digitChar (n % 10) :: acc
        else Nat.toDigitsCore 10 fuel (n / 10) (Nat.digitChar (n % 10) :: acc) := rfl
    rw [hstep] at h
    split at h
    · rcases List.mem_cons.mp h with h | h
      · exact Or.inl ⟨n % 10, h⟩
      · exact Or.inr h
    · rcases ih (n / 10) (Nat.digitChar (n % 10) :: acc) c h with h | h
      · exact Or.inl h
      · rcases List.mem_cons.mp h with h | h
        · exact Or.inl ⟨n % 10, h⟩
        · exact Or.inr h

theorem repr_no_newline (n : Nat) : '\n' ∉ (Nat.repr n).data := by
  intro h
  have h' : '\n' ∈ Nat.toDigitsCore 10 (n + 1) n [] := h
  rcases toDigitsCore_mem (n + 1) n [] '\n' h' with ⟨d, hd⟩ | hmem
  · exact digitChar_ne_newline d hd.symm
  · cases hmem

theorem no_newline_pixelLineString (b r g a : Nat) :
    '\n' ∉ (pixelLineString b r g a).data := by
  intro hm
  unfold pixelLineString at hm
  simp only [String.data_append, List.mem_append] at hm
  rcases hm with ((((((hb | hs) | hr) | hs) | hg) | hs) | ha)
  · exact repr_no_newline b hb
  · exact absurd hs (by decide)
  · exact repr_no_newline r hr
  · exact absurd hs (by decide)
  · exact repr_no_newline g hg
  · exact absurd hs (by decide)
  · exact repr_no_newline a ha

theorem no_newline_dimLine (im : PILImage) : '\n' ∉ (dimLine im).data := by
  intro hm
  unfold dimLine at hm
  simp only [String.data_append, List.mem_append] at hm
  rcases hm with (hh | hs) | hw
  · exact repr_no_newline im.height hh
  · exact absurd hs (by decide)
  · exact repr_no_newline im.width hw

theorem no_newline_pixelBodyOf (rbga : List Nat) : '\n' ∉ (pixelBodyOf rbga).data :=
  no_newline_pixelLineString _ _ _ _

/-! ### Line-splitting facts -/

theorem mk_data (s : String) : String.mk s.data = s := rfl

theorem splitStep_not_nl (c : Char) (x : List Char) (ls : List (List Char))
    (hc : ¬(c = '\n')) : splitStep c (x :: ls) = (c :: x) :: ls := by
  simp [splitStep, hc]

theorem splitStep_nl (acc : List (List Char)) : splitStep '\n' acc = [] :: acc := by
  simp [splitStep]

theorem foldr_splitStep_no_nl (a x : List Char) (ls : List (List Char))
    (h : '\n' ∉ a) : a.foldr splitStep (x :: ls) = (a ++ x) :: ls := by
  induction a with
  | nil => rfl
  | cons c a ih =>
    have hc : ¬(c = '\n') := fun hc => h (by simp [hc])
    have ha : '\n' ∉ a := fun hm => h (List.mem_cons_of_mem _ hm)
    rw [List.foldr_cons, ih ha, splitStep_not_nl c _ _ hc, List.cons_append]

theorem splitLines_ne_nil (cs : List Char) : splitLines cs ≠ [] := by
  cases cs with
  | nil => simp [splitLines]
  | cons c cs =>
    unfold splitLines splitStep
    rw [List.foldr_cons]
    split
    · simp
    · simp

theorem splitLines_append (a b : List Char) (h : '\n' ∉ a) :
    splitLines (a ++ '\n' :: b) = a :: splitLines b := by
  unfold splitLines
  rw [List.foldr_append, List.foldr_cons, splitStep_nl,
    foldr_splitStep_no_nl a [] _ h, List.append_nil]

theorem splitLines_join_chunks (chunks : List (List Char))
    (h : ∀ c ∈ chunks, '\n' ∉ c) :
    splitLines ((chunks.map (fun c => c ++ ['\n'])).flatten) = chunks ++ [[]] := by
  induction chunks with
  | nil => rfl
  | cons c cs ih =>
    rw [List.map_cons, List.flatten_cons, List.append_assoc, List.singleton_append,
      splitLines_append c _ (h c (List.mem_cons_self c cs)),
      ih (fun d hd => h d (List.mem_cons_of_mem _ hd)), List.cons_append]

theorem splitLines_length (cs : List Char) :
    (splitLines cs).length = cs.count '\n' + 1 := by
  induction cs with
  | nil => rfl
  | cons c cs ih =>
    by_cases hc : c = '\n'
    · subst hc
      unfold splitLines at ih ⊢
      rw [List.foldr_cons, splitStep_nl]
      simp only [List.length_cons, List.count_cons, ih]
      simp
    · rcases hsp : splitLines cs with _ | ⟨l, ls⟩
      · exact absurd hsp (splitLines_ne_nil cs)
      · unfold splitLines at hsp ih ⊢
        rw [List.foldr_cons, hsp, splitStep_not_nl c l ls hc]
        rw [hsp] at ih
        simp only [List.length_cons] at ih ⊢
        rw [List.count_cons, if_neg (by simpa using hc)]
        omega

/-! ### Output assembly facts -/

theorem foldl_append_data (l : List String) (s : String) :
    (l.foldl (fun r t => r ++ t) s).data = s.data ++ (l.map String.data).flatten := by
  induction l generalizing s with
  | nil => simp
  | cons t l ih => simp [ih, List.append_assoc]

theorem join_data (l : List String) :
    (String.join l).data = (l.map String.data).flatten := by
  have h := foldl_append_data l ""
  simpa [String.join] using h

/-! ### Pixel-step and loop facts -/

theorem formatPixel_ok (rbga : List Nat) (s : String)
    (h : formatPixel rbga = Except.ok s) : s = pixelBodyOf rbga ++ "\n" := by
  unfold formatPixel at h
  repeat' split at h
  all_goals simp_all [pixelBodyOf]

theorem pixelStep_ok (im : PILImage) (p : Nat × Nat) (s : String)
    (h : pixelStep im p = Except.ok s) :
    (p.1 < im.width ∧ p.2 < im.height) ∧ s = pixelBodyOf (im.pix p.1 p.2) ++ "\n" := by
  unfold pixelStep pixelRead at h
  by_cases hb : p.1 < im.width ∧ p.2 < im.height
  · rw [if_pos hb] at h
    exact ⟨hb, formatPixel_ok _ _ h⟩
  · rw [if_neg hb] at h
    exact absurd h (by simp)

theorem pixelStep_error (im : PILImage) (p : Nat × Nat) (e : RunError)
    (h : pixelStep im p = Except.error e) : e.isIndexingError = true := by
  unfold pixelStep pixelRead at h
  by_cases hb : p.1 < im.width ∧ p.2 < im.height
  · rw [if_pos hb] at h
    unfold formatPixel at h
    repeat' split at h
    all_goals simp_all [RunError.isIndexingError]
    all_goals (cases h; rfl)
  · rw [if_neg hb] at h
    have he : RunError.pixelIndexError = e := by
      have h' : Except.error (α := String) RunError.pixelIndexError = Except.error e := h
      exact Except.error.inj h'
    rw [← he]
    rfl

theorem runPixelLoop_cons (im : PILImage) (q : Nat × Nat) (rest : List (Nat × Nat)) :
    runPixelLoop im (q :: rest) =
      match pixelStep im q with
      | Except.error e => ([], some e)
      | Except.ok s =>
        (Event.write s :: (runPixelLoop im rest).1, (runPixelLoop im rest).2) := rfl

theorem runPixelLoop_cons_error (im : PILImage) (q : Nat × Nat)
    (rest : List (Nat × Nat)) (e : RunError) (hs : pixelStep im q = Except.error e) :
    runPixelLoop im (q :: rest) = ([], some e) := by
  rw [runPixelLoop_cons, hs]

theorem runPixelLoop_cons_ok (im : PILImage) (q : Nat × Nat)
    (rest : List (Nat × Nat)) (s : String) (hs : pixelStep im q = Except.ok s) :
    runPixelLoop im (q :: rest) =
      (Event.write s :: (runPixelLoop im rest).1, (runPixelLoop im rest).2) := by
  rw [runPixelLoop_cons, hs]

theorem runPixelLoop_complete_bounds (im : PILImage) (l : List (Nat × Nat))
    (h : (runPixelLoop im l).2 = none) :
    ∀ p ∈ l, p.1 < im.width ∧ p.2 < im.height := by
  induction l with
  | nil => intro p hp; cases hp
  | cons q rest ih =>
    intro p hp
    cases hs : pixelStep im q with
    | error e =>
      rw [runPixelLoop_cons_error im q rest e hs] at h
      exact absurd h (by simp)
    | ok s =>
      rw [runPixelLoop_cons_ok im q rest s hs] at h
      rcases List.mem_cons.mp hp with rfl | hp
      · exact (pixelStep_ok im p s hs).1
      · exact ih h p hp

theorem runPixelLoop_complete_writes (im : PILImage) (l : List (Nat × Nat))
    (h : (runPixelLoop im l).2 = none) :
    (runPixelLoop im l).1 =
      l.map fun p => Event.write (pixelBodyOf (im.pix p.1 p.2) ++ "\n") := by
  induction l with
  | nil => rfl
  | cons q rest ih =>
    cases hs : pixelStep im q with
    | error e =>
      rw [runPixelLoop_cons_error im q rest e hs] at h
      exact absurd h (by simp)
    | ok s =>
      rw [runPixelLoop_cons_ok im q rest s hs] at h ⊢
      have hq := pixelStep_ok im q s hs
      rw [List.map_cons, ih h, hq.2]

theorem runPixelLoop_error_mem (im : PILImage) (l : List (Nat × Nat)) (e : RunError)
    (h : (runPixelLoop im l).2 = some e) :
    ∃ p ∈ l, pixelStep im p = Except.error e := by
  induction l with
  | nil => exact absurd h (by simp [runPixelLoop])
  | cons q rest ih =>
    cases hs : pixelStep im q with
    | error e2 =>
      rw [runPixelLoop_cons_error im q rest e2 hs] at h
      have he : e2 = e := Option.some.inj h
      exact ⟨q, List.mem_cons_self q rest, he ▸ hs⟩
    | ok s =>
      rw [runPixelLoop_cons_ok im q rest s hs] at h
      rcases ih h with ⟨p, hp, hpe⟩
      exact ⟨p, List.mem_cons_of_mem _ hp, hpe⟩

/-! ### Whole-run facts -/

theorem run_some_snd (im : PILImage) :
    (run (some im)).2 = (runPixelLoop im (loopCoords im.width im.height)).2 := rfl

theorem run_some_fst (im : PILImage) :
    (run (some im)).1 = Event.openOutput :: Event.write (headerString im) ::
      (runPixelLoop im (loopCoords im.width im.height)).1 := rfl

theorem writesOf_cons_open (evs : List Event) :
    writesOf (Event.openOutput :: evs) = writesOf evs := rfl

theorem writesOf_cons_write (s : String) (evs : List Event) :
    writesOf (Event.write s :: evs) = s :: writesOf evs := rfl

theorem writesOf_map_write {α : Type} (l : List α) (f : α → String) :
    writesOf (l.map fun p => Event.write (f p)) = l.map f := by
  induction l with
  | nil => rfl
  | cons a l ih => rw [List.map_cons, List.map_cons, writesOf_cons_write, ih]

theorem mem_loopCoords (hVar wVar : Nat) (p : Nat × Nat) :
    p ∈ loopCoords hVar wVar ↔ p.1 < wVar ∧ p.2 < hVar := by
  rcases p with ⟨x, y⟩
  simp only [loopCoords, List.mem_flatMap, List.mem_map, List.mem_range]
  constructor
  · rintro ⟨y2, hy2, x2, hx2, heq⟩
    obtain ⟨rfl, rfl⟩ : x2 = x ∧ y2 = y := by
      constructor <;> [exact congrArg Prod.fst heq; exact congrArg Prod.snd heq]
    exact ⟨hx2, hy2⟩
  · rintro ⟨hx, hy⟩
    exact ⟨y, hy, x, hx, rfl⟩

theorem complete_dims (im : PILImage) (h : (run (some im)).2 = none) :
    im.width = im.height ∨ im.width = 0 ∨ im.height = 0 := by
  by_contra hc
  push_neg at hc
  obtain ⟨hne, hw, hh⟩ := hc
  have h' : (runPixelLoop im (loopCoords im.width im.height)).2 = none := h
  have hb := runPixelLoop_complete_bounds im _ h'
  rcases Nat.lt_or_ge im.width im.height with hlt | hge
  · have hmem : ((im.width, 0) : Nat × Nat) ∈ loopCoords im.width im.height :=
      (mem_loopCoords _ _ _).mpr ⟨hlt, Nat.pos_of_ne_zero hw⟩
    exact absurd (hb _ hmem).1 (lt_irrefl im.width)
  · have hlt : im.height < im.width := lt_of_le_of_ne hge (Ne.symm hne)
    have hmem : ((0, im.height) : Nat × Nat) ∈ loopCoords im.width im.height :=
      (mem_loopCoords _ _ _).mpr ⟨Nat.pos_of_ne_zero hh, hlt⟩
    exact absurd (hb _ hmem).2 (lt_irrefl im.height)

theorem loop_eq_rowMajor (im : PILImage) (h : (run (some im)).2 = none) :
    loopCoords im.width im.height = rowMajorCoords im.width im.height := by
  rcases complete_dims im h with he | h0 | h0
  · rw [loopCoords, rowMajorCoords, he]
  · rw [loopCoords, rowMajorCoords, h0]
    simp
  · rw [loopCoords, rowMajorCoords, h0]
    simp

theorem header_data (im : PILImage) :
    (headerString im).data =
      ['P', '3'] ++ '\n' :: ((dimLine im).data ++ ['\n']) := by
  unfold headerString dimLine
  simp [String.data_append, List.append_assoc]

theorem output_data_start (im : PILImage) :
    (outputString (some im)).data =
      ['P', '3'] ++ '\n' :: ((dimLine im).data ++ '\n' ::
        ((writesOf (runPixelLoop im (loopCoords im.width im.height)).1).map
          String.data).flatten) := by
  unfold outputString
  rw [run_some_fst, writesOf_cons_open, writesOf_cons_write, join_data,
    List.map_cons, List.flatten_cons, header_data]
  simp only [List.append_assoc, List.cons_append, List.singleton_append, List.nil_append]

theorem output_data_complete (im : PILImage) (h : (run (some im)).2 = none) :
    (outputString (some im)).data =
      ['P', '3'] ++ '\n' :: ((dimLine im).data ++ '\n' ::
        (((rowMajorCoords im.width im.height).map
          (fun p => (pixelBodyOf (im.pix p.1 p.2)).data ++ ['\n'])).flatten)) := by
  have h' : (runPixelLoop im (loopCoords im.width im.height)).2 = none := h
  rw [output_data_start, runPixelLoop_complete_writes im _ h', loop_eq_rowMajor im h,
    writesOf_map_write, List.map_map]
  have hfun : (String.data ∘ fun p : Nat × Nat => pixelBodyOf (im.pix p.1 p.2) ++ "\n") =
      fun p : Nat × Nat => (pixelBodyOf (im.pix p.1 p.2)).data ++ ['\n'] := by
    funext p
    show (pixelBodyOf (im.pix p.1 p.2) ++ "\n").data = _
    rw [String.data_append]
  rw [hfun]

theorem fileLines_complete (im : PILImage) (h : (run (some im)).2 = none) :
    fileLines (outputString (some im)) =
      "P3" :: dimLine im ::
        (((rowMajorCoords im.width im.height).map
          fun p => pixelBodyOf (im.pix p.1 p.2)) ++ [""]) := by
  unfold fileLines
  rw [output_data_complete im h]
  have hchunks :
      ((rowMajorCoords im.width im.height).map
        (fun p => (pixelBodyOf (im.pix p.1 p.2)).data ++ ['\n'])) =
      (((rowMajorCoords im.width im.height).map
        fun p => (pixelBodyOf (im.pix p.1 p.2)).data).map fun c => c ++ ['\n']) := by
    rw [List.map_map]
    rfl
  rw [hchunks, splitLines_append _ _ (by decide),
    splitLines_append _ _ (no_newline_dimLine im),
    splitLines_join_chunks _ (by
      intro c hc
      rcases List.mem_map.mp hc with ⟨p, _, rfl⟩
      exact no_newline_pixelBodyOf _)]
  rw [List.map_cons, List.map_cons, List.map_append, List.map_map]
  have hmk : (String.mk ∘ fun p : Nat × Nat => (pixelBodyOf (im.pix p.1 p.2)).data) =
      fun p : Nat × Nat => pixelBodyOf (im.pix p.1 p.2) := by
    funext p
    rfl
  rw [hmk, mk_data]
  rfl

theorem rowMajor_succ (w h : Nat) :
    rowMajorCoords w (h + 1) =
      ((List.range w).map fun x => (x, 0)) ++
        ((rowMajorCoords w h).map fun p => (p.1, p.2 + 1)) := by
  unfold rowMajorCoords
  rw [List.range_succ_eq_map, List.flatMap_cons]
  simp only [List.flatMap_map, List.map_flatMap, List.map_map]
  rfl

theorem rowMajor_get (w h x y : Nat) (hx : x < w) (hy : y < h) :
    (rowMajorCoords w h).get? (y * w + x) = some (x, y) := by
  induction y generalizing h with
  | zero =>
    rcases h with _ | h
    · exact absurd hy (by omega)
    · rw [rowMajor_succ, show 0 * w + x = x from by omega]
      rw [List.get?_append (by simpa using hx)]
      rw [List.get?_map, List.get?_range hx]
      rfl
  | succ y ih =>
    rcases h with _ | h
    · exact absurd hy (by omega)
    · have hyh : y < h := by omega
      rw [rowMajor_succ]
      have hlen : ((List.range w).map fun x => (x, 0)).length = w := by simp
      rw [List.get?_append_right (by rw [hlen, Nat.succ_mul]; omega)]
      rw [hlen]
      have hidx : (y + 1) * w + x - w = y * w + x := by
        rw [Nat.succ_mul]
        omega
      rw [hidx, List.get?_map, ih h hyh]
      rfl

theorem rowMajor_length (w h : Nat) : (rowMajorCoords w h).length = h * w := by
  induction h with
  | zero => simp [rowMajorCoords]
  | succ h ih =>
    rw [rowMajor_succ, List.length_append, List.length_map, List.length_map,
      List.length_range, ih, Nat.succ_mul]
    omega

theorem formatPixel_short (l : List Nat) (h : l.length < 4) :
    formatPixel l =
      Except.error (RunError.channelIndexError (if l.length = 3 then 3 else 2)) := by
  rcases l with _ | ⟨a, _ | ⟨b, _ | ⟨c, _ | ⟨d, t⟩⟩⟩⟩
  · rfl
  · rfl
  · rfl
  · rfl
  · exact absurd h (by simp)

theorem loopCoords_head (a b : Nat) (ha : 0 < a) (hb : 0 < b) :
    ∃ rest, loopCoords a b = (0, 0) :: rest := by
  obtain ⟨a2, rfl⟩ : ∃ a2, a = a2 + 1 := ⟨a - 1, by omega⟩
  obtain ⟨b2, rfl⟩ : ∃ b2, b = b2 + 1 := ⟨b - 1, by omega⟩
  refine ⟨((List.range b2).map fun x => (x + 1, 0)) ++
    (((List.range a2).map Nat.succ).flatMap fun y =>
      (List.range (b2 + 1)).map fun x => (x, y)), ?_⟩
  unfold loopCoords
  rw [List.range_succ_eq_map, List.flatMap_cons, List.range_succ_eq_map, List.map_cons]
  rw [List.cons_append, List.map_map]
  rfl

theorem fileLines_start (im : PILImage) :
    ∃ rest, fileLines (outputString (some im)) =
      "P3" :: dimLine im :: rest := by
  refine ⟨(splitLines ((writesOf
    (runPixelLoop im (loopCoords im.width im.height)).1).map String.data).flatten).map
      String.mk, ?_⟩
  unfold fileLines
  rw [output_data_start, splitLines_append _ _ (by decide),
    splitLines_append _ _ (no_newline_dimLine im), List.map_cons, List.map_cons, mk_data]

/-! ## Claims -/

/-- C1 counterexample: on a 1×1 image whose single pixel is
`(r, g, b, a) = (10, 20, 30, 40)`, the pixel's output line is
`"30 10 20 40"`, not the claimed `"b r g"` line `"30 10 20"`: the
alpha value is written as a fourth number, so it does appear in the
output. -/
theorem C1_counterexample :
    (fileLines (outputString (some imgC1))).get? 2 = some "30 10 20 40" ∧
      ("30 10 20 40" : String) ≠ "30 10 20" := by
  decide

/-- C1 (amended): for every pixel `(x, y)` with channel tuple
`(r, g, b, a)` of an image on which the run completes, the
corresponding output line (line `2 + y·W + x`, counting from 0) holds
the decimal integers `b`, `r`, `g` and then a fourth decimal integer:
the alpha value `a`, which therefore does appear in the output. -/
theorem C1_amended (im : PILImage) (x y r g b a : Nat)
    (hc : (run (some im)).2 = none) (hx : x < im.width) (hy : y < im.height)
    (hp : im.pix x y = [r, g, b, a]) :
    (fileLines (outputString (some im))).get? (2 + (y * im.width + x)) =
      some (pixelLineString b r g a) := by
  rw [fileLines_complete im hc]
  have hg := rowMajor_get im.width im.height x y hx hy
  rw [show 2 + (y * im.width + x) = (y * im.width + x) + 1 + 1 from by omega]
  rw [List.get?_cons_succ, List.get?_cons_succ]
  have hlt : y * im.width + x <
      (((rowMajorCoords im.width im.height).map
        fun p => pixelBodyOf (im.pix p.1 p.2))).length := by
    rw [List.length_map, rowMajor_length]
    have hmul := Nat.mul_le_mul_right im.width hy
    rw [Nat.succ_mul] at hmul
    omega
  rw [List.get?_append hlt, List.get?_map, hg]
  show some (pixelBodyOf (im.pix x y)) = some (pixelLineString b r g a)
  rw [hp]
  rfl

/-- C1 witness: the amended claim instantiated on the 1×1 image with
pixel `(10, 20, 30, 40)`. -/
theorem C1_witness :
    ((run (some imgC1)).2 = none ∧ 0 < imgC1.width ∧ 0 < imgC1.height ∧
      imgC1.pix 0 0 = [10, 20, 30, 40]) ∧
    (fileLines (outputString (some imgC1))).get? (2 + (0 * imgC1.width + 0)) =
      some (pixelLineString 30 10 20 40) :=
  ⟨⟨by decide, by decide, by decide, rfl⟩,
    C1_amended imgC1 0 0 10 20 30 40 (by decide) (by decide) (by decide) rfl⟩

/-- C2 counterexample: on a 2-wide, 1-high image the second output
line is `"1 2"` (height first), not the claimed `"W H"` line `"2 1"`. -/
theorem C2_counterexample :
    imgTwoWide.width = 2 ∧ imgTwoWide.height = 1 ∧
      (fileLines (outputString (some imgTwoWide))).get? 1 = some "1 2" ∧
      ("1 2" : String) ≠ "2 1" := by
  decide

/-- C2 (amended): for every decoded image the second output line is
the image's height, a space, the image's width — the dimensions in the
swapped order (line 7 unpacks `im.size` backwards), which matches the
claimed `"W H"` only for square images. -/
theorem C2_amended (im : PILImage) :
    (fileLines (outputString (some im))).get? 1 = some (dimLine im) := by
  rcases fileLines_start im with ⟨rest, hre⟩
  rw [hre]
  rfl

/-- C3 counterexample: on the 2-wide, 1-high image with pixels
`(10,20,30,255)` and `(40,50,60,255)` the output file does not hold
the claimed four lines; the run dies with an uncaught `IndexError`. -/
theorem C3_counterexample :
    outputString (some imgTwoWide) ≠ "P3\n2 1\n30 10 20\n60 40 50\n" ∧
      (run (some imgTwoWide)).2 = some RunError.pixelIndexError := by
  decide

/-- C3 (amended): on that image the run writes the tag line, the
swapped dimension line `"1 2"`, and the single pixel line
`"30 10 20 255"` (with alpha), then raises an uncaught `IndexError`
at coordinate `(0, 1)` and never completes. -/
theorem C3_amended :
    outputString (some imgTwoWide) = "P3\n1 2\n30 10 20 255\n" ∧
      (run (some imgTwoWide)).2 = some RunError.pixelIndexError := by
  decide

/-- C4 (confirmed): for every decoded image (dimensions are positive)
whose width differs from its height, the loop's coordinate sequence
contains a coordinate outside the image bounds, the run never
completes, and the terminating error is an indexing error. -/
theorem C4_theorem (im : PILImage) (hW : 0 < im.width) (hH : 0 < im.height)
    (hne : im.width ≠ im.height) :
    (∃ p ∈ loopCoords im.width im.height,
      ¬(p.1 < im.width ∧ p.2 < im.height)) ∧
    (run (some im)).2 ≠ none ∧
    ∀ e, (run (some im)).2 = some e → e.isIndexingError = true := by
  have hoob : ∃ p ∈ loopCoords im.width im.height,
      ¬(p.1 < im.width ∧ p.2 < im.height) := by
    rcases Nat.lt_or_ge im.width im.height with hlt | hge
    · exact ⟨(im.width, 0), (mem_loopCoords _ _ _).mpr ⟨hlt, hW⟩, by simp⟩
    · have hlt2 : im.height < im.width := lt_of_le_of_ne hge (Ne.symm hne)
      exact ⟨(0, im.height), (mem_loopCoords _ _ _).mpr ⟨hH, hlt2⟩, by simp⟩
  refine ⟨hoob, ?_, ?_⟩
  · intro hnone
    rcases complete_dims im hnone with he | h0 | h0
    · exact hne he
    · omega
    · omega
  · intro e he
    have he' : (runPixelLoop im (loopCoords im.width im.height)).2 = some e := he
    rcases runPixelLoop_error_mem im _ e he' with ⟨p, _, hp⟩
    exact pixelStep_error im p e hp

/-- C4 witness: the theorem instantiated on the 2-wide, 1-high image. -/
theorem C4_witness :
    (0 < imgTwoWide.width ∧ 0 < imgTwoWide.height ∧
      imgTwoWide.width ≠ imgTwoWide.height) ∧
    ((∃ p ∈ loopCoords imgTwoWide.width imgTwoWide.height,
        ¬(p.1 < imgTwoWide.width ∧ p.2 < imgTwoWide.height)) ∧
      (run (some imgTwoWide)).2 ≠ none ∧
      ∀ e, (run (some imgTwoWide)).2 = some e → e.isIndexingError = true) :=
  ⟨⟨by decide, by decide, by decide⟩,
    C4_theorem imgTwoWide (by decide) (by decide) (by decide)⟩

/-- C5 (confirmed): when the run completes on a `W × H` image, the
output file holds exactly `2 + W·H` newline-terminated lines. -/
theorem C5_theorem (im : PILImage) (h : (run (some im)).2 = none) :
    fileLineCount (outputString (some im)) = 2 + im.width * im.height := by
  have hsplit := splitLines_length (outputString (some im)).data
  have hlen : (fileLines (outputString (some im))).length =
      (splitLines (outputString (some im)).data).length := by
    unfold fileLines
    rw [List.length_map]
  rw [fileLines_complete im h, List.length_cons, List.length_cons,
    List.length_append, List.length_map, rowMajor_length,
    List.length_singleton] at hlen
  unfold fileLineCount
  have hmul : im.height * im.width = im.width * im.height := Nat.mul_comm _ _
  omega

/-- C5 witness: the theorem instantiated on a completing 2×2 image. -/
theorem C5_witness :
    (run (some imgSquare2)).2 = none ∧
      fileLineCount (outputString (some imgSquare2)) =
        2 + imgSquare2.width * imgSquare2.height :=
  ⟨by decide, C5_theorem imgSquare2 (by decide)⟩

/-- C6 counterexample: the 1×1 opaque red image produces a third line
`"0 255 0 255"` — the alpha 255 is appended — so the file is not the
claimed three-line document ending in `"0 255 0"`. -/
theorem C6_counterexample :
    outputString (some imgRed) ≠ "P3\n1 1\n0 255 0\n" ∧
      (fileLines (outputString (some imgRed))).get? 2 = some "0 255 0 255" := by
  decide

/-- C6 (amended): the 1×1 opaque red image produces exactly the tag
line, the line `"1 1"`, and the line `"0 255 0 255"` (with the alpha
value as a fourth number), and the run completes. -/
theorem C6_amended :
    outputString (some imgRed) = "P3\n1 1\n0 255 0 255\n" ∧
      (run (some imgRed)).2 = none := by
  decide

/-- C7 counterexample: on a 3-wide, 2-high image the run writes lines
for coordinates `(0,0), (1,0), (0,1), (1,1)` and then dies: the
vertical-position-1 pixel `(0, 1)` gets a line while the
vertical-position-0 pixel `(2, 0)` never does, so the output is not
row-major over the image's true coordinates (not all horizontal
positions of row 0 come first). -/
theorem C7_counterexample :
    emittedCoords imgWide3 = [(0, 0), (1, 0), (0, 1), (1, 1)] ∧
      ((2, 0) : Nat × Nat) ∉ emittedCoords imgWide3 ∧
      ((0, 1) : Nat × Nat) ∈ emittedCoords imgWide3 ∧
      (2 : Nat) < imgWide3.width ∧ (0 : Nat) < imgWide3.height ∧
      (runPixelLoop imgWide3 (loopCoords imgWide3.width imgWide3.height)).1 =
        (emittedCoords imgWide3).map
          (fun p => Event.write (pixelBodyOf (imgWide3.pix p.1 p.2) ++ "\n")) ∧
      (run (some imgWide3)).2 = some RunError.pixelIndexError := by
  decide

/-- C7 (amended): restricted to runs that complete (which forces the
loop bounds to agree with the true bounds), the output is exactly the
header followed by one line per pixel in row-major order over the true
coordinates: row 0 left to right, then row 1, and so on. -/
theorem C7_amended (im : PILImage) (h : (run (some im)).2 = none) :
    fileLines (outputString (some im)) =
      "P3" :: dimLine im ::
        (((rowMajorCoords im.width im.height).map
          fun p => pixelBodyOf (im.pix p.1 p.2)) ++ [""]) :=
  fileLines_complete im h

/-- C7 witness: the amended claim instantiated on a completing 2×2
image. -/
theorem C7_witness :
    (run (some imgSquare2)).2 = none ∧
      fileLines (outputString (some imgSquare2)) =
        "P3" :: dimLine imgSquare2 ::
          (((rowMajorCoords imgSquare2.width imgSquare2.height).map
            fun p => pixelBodyOf (imgSquare2.pix p.1 p.2)) ++ [""]) :=
  ⟨by decide, C7_amended imgSquare2 (by decide)⟩

/-- C8 counterexample: the first output line is the tag `"P3"`, which
has 2 characters, not the claimed 3. -/
theorem C8_counterexample :
    (fileLines (outputString (some imgRed))).get? 0 = some "P3" ∧
      ("P3" : String).length = 2 ∧ ¬("P3" : String).length = 3 := by
  decide

/-- C8 (amended): the first line of every output file is the literal
2-character format tag `"P3"` followed by a line terminator. -/
theorem C8_amended (im : PILImage) :
    (fileLines (outputString (some im))).get? 0 = some "P3" ∧
      ("P3" : String).length = 2 := by
  rcases fileLines_start im with ⟨rest, hre⟩
  rw [hre]
  exact ⟨rfl, by decide⟩

/-- C9 counterexample: on a 1×1 two-channel image (PIL mode LA) the
f-string evaluates `rbga[2]` first, so the run dies with an indexing
error at channel index 2 — channel index 3 is never the failing
access — after writing only the header. -/
theorem C9_counterexample :
    (run (some imgTwoChan)).2 = some (RunError.channelIndexError 2) ∧
      some (RunError.channelIndexError 2) ≠ some (RunError.channelIndexError 3) ∧
      writesOf (run (some imgTwoChan)).1 = [headerString imgTwoChan] := by
  decide

/-- C9 (amended): on every decoded image whose pixels all expose
`n < 4` channel values, the run terminates at the very first pixel
with an uncaught indexing error at the first out-of-range channel
access — index 3 when `n = 3`, index 2 when `n < 3` — and nothing
beyond the header is written. -/
theorem C9_amended (im : PILImage) (n : Nat)
    (hn : ∀ x y, x < im.width → y < im.height → (im.pix x y).length = n)
    (h4 : n < 4) (hW : 0 < im.width) (hH : 0 < im.height) :
    (run (some im)).2 =
        some (RunError.channelIndexError (if n = 3 then 3 else 2)) ∧
      writesOf (run (some im)).1 = [headerString im] := by
  rcases loopCoords_head im.width im.height hW hH with ⟨rest, hlc⟩
  have hs : pixelStep im (0, 0) =
      Except.error (RunError.channelIndexError (if n = 3 then 3 else 2)) := by
    unfold pixelStep pixelRead
    rw [if_pos ⟨hW, hH⟩]
    have hfp := formatPixel_short (im.pix 0 0) (by rw [hn 0 0 hW hH]; exact h4)
    rw [hn 0 0 hW hH] at hfp
    exact hfp
  constructor
  · show (runPixelLoop im (loopCoords im.width im.height)).2 = _
    rw [hlc, runPixelLoop_cons_error im _ rest _ hs]
  · rw [run_some_fst, hlc, runPixelLoop_cons_error im _ rest _ hs]
    rfl

/-- C9 witness: the amended claim instantiated on a 1×1 three-channel
(RGB) image, where the failing access is channel index 3. -/
theorem C9_witness :
    ((∀ x y, x < imgRGB.width → y < imgRGB.height →
        (imgRGB.pix x y).length = 3) ∧ (3 : Nat) < 4 ∧
      0 < imgRGB.width ∧ 0 < imgRGB.height) ∧
    ((run (some imgRGB)).2 = some (RunError.channelIndexError 3) ∧
      writesOf (run (some imgRGB)).1 = [headerString imgRGB]) :=
  ⟨⟨fun _ _ _ _ => rfl, by decide, by decide, by decide⟩,
    C9_amended imgRGB 3 (fun _ _ _ _ => rfl) (by decide) (by decide) (by decide)⟩

/-- C10 (confirmed): on an undecodable input the run fails with the
decode error before any file-system event: no event at all is
emitted — in particular the destination file is never opened or
created and zero bytes are written — while on a decoded input the
open event does occur. -/
theorem C10_theorem :
    (run none).1 = [] ∧ (run none).2 = some RunError.decodeError ∧
      outputString none = "" ∧ Event.openOutput ∉ (run none).1 ∧
      Event.openOutput ∈ (run (some imgRed)).1 := by
  decide

end ImageGenerator
